import Mathlib

/-!
Shallow embedding of the record normalization and upsert-merge engine of
`src/app.py` (a Streamlit/Polars app managing "desvinculados" records).

DataFrames are modelled as `List Registro` (a `Registro` is one row of the
canonical `FINAL_SCHEMA`: every column of a Polars frame is nullable, hence
every field is an `Option`).  The ambient session state
`st.session_state.data` is modelled by explicit state passing: each UI-level
operation takes the current resident dataset and returns the new one.
The current date (`datetime.now().strftime('%Y-%m-%d')`) is passed in as an
explicit `hoy : String` parameter.
-/

/-! ## Python string helpers (per-character ASCII semantics) -/

def isWsChar (c : Char) : Bool :=
  c == ' ' || c == '\t' || c == '\n' || c == '\r' || c == '\x0b' || c == '\x0c'

def pyLower (s : String) : String :=
  String.mk (s.data.map Char.toLower)

def pyUpper (s : String) : String :=
  String.mk (s.data.map Char.toUpper)

def pyStripList (cs : List Char) : List Char :=
  ((cs.dropWhile isWsChar).reverse.dropWhile isWsChar).reverse

def pyStrip (s : String) : String :=
  String.mk (pyStripList s.data)

def digitsToNat (cs : List Char) : Nat :=
  cs.foldl (fun n c => n * 10 + (c.toNat - 48)) 0

def isLowerAZ (c : Char) : Bool :=
  decide (97 ≤ c.toNat) && decide (c.toNat ≤ 122)

/-! ## Constants from section 1 of `app.py` -/

def MONTH_MAPPING : List (String × Nat) :=
  [("ene", 1), ("feb", 2), ("mar", 3), ("abr", 4),
   ("may", 5), ("jun", 6), ("jul", 7), ("ago", 8),
   ("sep", 9), ("sept", 9), ("oct", 10), ("nov", 11), ("dic", 12)]

/-- `ODS_ESTADO_MAP` from `app.py`.  The Python dict also maps the key
`None` to `'pendiente'`, but that key is unreachable in `procesar_ods`
because the column is `fill_null("")`-ed before the lookup; the `''` entry
covers it. -/
def ODS_ESTADO_MAP : List (String × String) :=
  [("+", "cargado"), ("?", "revisar"), ("x", "otro distrito"),
   ("-", "otro distrito"), ("", "pendiente")]

def TRUE_VALUES : List String := ["1", "t", "true", "si", "s"]

def ESTADOS : List String := ["cargado", "pendiente", "revisar", "otro distrito"]

/-! ## Date normalizer `normalizar_fecha` -/

def isLeap (y : Nat) : Bool :=
  (y % 4 == 0 && y % 100 != 0) || (y % 400 == 0)

def daysInMonth (y m : Nat) : Nat :=
  if m == 2 then (if isLeap y then 29 else 28)
  else if m == 4 || m == 6 || m == 9 || m == 11 then 30
  else 31

/-- Validity condition enforced by Python's `datetime(year, month, day)`
constructor (raises `ValueError` outside these bounds). -/
def validDate (y m d : Nat) : Bool :=
  decide (1 ≤ y) && decide (y ≤ 9999) && decide (1 ≤ m) && decide (m ≤ 12) &&
  decide (1 ≤ d) && decide (d ≤ daysInMonth y m)

def padNum (w n : Nat) : List Char :=
  List.replicate (w - (Nat.toDigits 10 n).length) '0' ++ Nat.toDigits 10 n

/-- `datetime(y, m, d).strftime('%Y-%m-%d')`. -/
def fmtDate (y m d : Nat) : String :=
  String.mk (padNum 4 y ++ '-' :: padNum 2 m ++ '-' :: padNum 2 d)

/-- `re.match(r'(\d{1,2})\s*([a-z]+)\s*(\d{4})', clean_str)`: anchored at the
start only.  A run of three or more leading digits can never match (the
day group takes at most two digits and the following character would then
have to open the letter group), so the match is deterministic. -/
def matchAbbrev (cs : List Char) : Option (Nat × List Char × Nat) :=
  let p1 := cs.span Char.isDigit
  if p1.1.length == 1 || p1.1.length == 2 then
    let r2 := p1.2.dropWhile isWsChar
    let p3 := r2.span isLowerAZ
    if p3.1.length == 0 then none
    else
      let r4 := p3.2.dropWhile isWsChar
      let ys := r4.takeWhile Char.isDigit
      if 4 ≤ ys.length then some (digitsToNat p1.1, p3.1, digitsToNat (ys.take 4))
      else none
  else none

def monthNum (abbr : List Char) : Option Nat :=
  MONTH_MAPPING.lookup (String.mk abbr)

def splitDash : List Char → List (List Char)
  | [] => [[]]
  | c :: cs =>
    if c == '-' then [] :: splitDash cs
    else
      match splitDash cs with
      | [] => [[c]]
      | g :: gs => (c :: g) :: gs

/-- `datetime.strptime(clean_str, '%Y-%m-%d')` succeeds: CPython's
`_strptime` regexes require exactly 4 digits for `%Y`, 1–2 digits for `%m`
and `%d`, full consumption of the string, and a calendrically valid date. -/
def isCanonicalDate (cs : List Char) : Bool :=
  match splitDash cs with
  | [y, m, d] =>
    (y.length == 4) && y.all Char.isDigit &&
    (m.length == 1 || m.length == 2) && m.all Char.isDigit &&
    (d.length == 1 || d.length == 2) && d.all Char.isDigit &&
    validDate (digitsToNat y) (digitsToNat m) (digitsToNat d)
  | _ => false

/-- `normalizar_fecha` from `app.py`.  `fecha = none` models a Python
`None`/null input (the `pl.Series([fecha_str]).is_null()` guard); the
result `none` models the function returning Python `None` (parse failure).
`hoy` is `datetime.now().strftime(DATE_FORMAT)`. -/
def normalizar_fecha (hoy : String) (fecha : Option String) : Option String :=
  match fecha with
  | none => some hoy
  | some s =>
    let clean := pyStripList ((s.data.map Char.toLower).filter (fun c => !(c == '.')))
    match matchAbbrev clean with
    | some (day, abbr, year) =>
      match monthNum abbr with
      | some m => if validDate year m day then some (fmtDate year m day) else none
      | none => if isCanonicalDate clean then some (String.mk clean) else none
    | none => if isCanonicalDate clean then some (String.mk clean) else none

/-! ## Boolean normalizer (the `normalizado` column expression in
`procesar_csv`) -/

/-- `pl.when(pl.col('normalizado').cast(pl.Utf8).str.to_lowercase()
.is_in(TRUE_VALUES)).then(1).otherwise(0)` applied to one cell.  A null
cell makes the condition null, which takes the `otherwise` branch. -/
def normalizar_bool (v : Option String) : Int :=
  match v with
  | none => 0
  | some s => if pyLower s ∈ TRUE_VALUES then 1 else 0

/-! ## Canonical record (`FINAL_SCHEMA`) and dataset -/

/-- One row of the canonical schema `FINAL_SCHEMA`.  Every Polars column is
nullable, hence every field is an `Option`.  Dates are canonical strings. -/
structure Registro where
  nro_cli : Option Int
  nro_med : Option Int
  usuario : Option String
  domicilio : Option String
  normalizado : Option Int
  fecha_alta : Option String
  fecha_intervencion : Option String
  estado : Option String
deriving Repr, DecidableEq

/-- The primary-key column of a dataset. -/
def keys (l : List Registro) : List (Option Int) :=
  l.map (·.nro_cli)

/-! ## `unique(subset=['nro_cli'], keep='last')` and `keep='first'` -/

/-- Polars `DataFrame.unique(subset=['nro_cli'], keep='last')`: a row is
kept iff no later row has the same key. -/
def uniqueKeepLast : List Registro → List Registro
  | [] => []
  | r :: rest =>
    if r.nro_cli ∈ keys rest then uniqueKeepLast rest
    else r :: uniqueKeepLast rest

/-- Worker for `keep='first'`: `seen` is the set of keys already emitted. -/
def ukfAux (seen : List (Option Int)) : List Registro → List Registro
  | [] => []
  | r :: rest =>
    if r.nro_cli ∈ seen then ukfAux seen rest
    else r :: ukfAux (r.nro_cli :: seen) rest

/-- Polars `DataFrame.unique(subset=['nro_cli'], keep='first')`: a row is
kept iff no earlier row has the same key. -/
def uniqueKeepFirst (l : List Registro) : List Registro :=
  ukfAux [] l

/-! ## CSV adapter `procesar_csv` -/

/-- A row of the uploaded CSV after the `CSV_TO_DB_MAPPING` rename (the
rename itself is a header operation; a missing source column raises and
aborts the batch, so a well-formed upload is assumed).  `normalizado` is
kept as its raw textual cell, as seen by the `cast(pl.Utf8)` in the
boolean-normalizing expression. -/
structure CsvRow where
  nro_cli : Option Int
  nro_med : Option Int
  usuario : Option String
  domicilio : Option String
  normalizado : Option String
  fecha_alta : Option String
deriving Repr, DecidableEq

/-- The row-wise normalization pipeline of `procesar_csv`: apply
`normalizar_fecha` to `fecha_alta` via `map_elements` — whose default
`skip_nulls=True` never calls the function on a null cell, so a null
`fecha_alta` stays null (the today-fallback branch of `normalizar_fecha`
is unreachable from this pipeline) — then drop rows where `fecha_alta` is
null (either null in the source or failed normalization) with
`.filter(pl.col('fecha_alta').is_not_null())`; normalize `normalizado` to
0/1; constant columns `estado='pendiente'` and `fecha_intervencion=hoy`;
select into the canonical schema. -/
def procesarCsvBatch (hoy : String) (rows : List CsvRow) : List Registro :=
  rows.filterMap (fun r =>
    match r.fecha_alta with
    | none => none
    | some fa0 =>
      match normalizar_fecha hoy (some fa0) with
      | none => none
      | some fa =>
        some { nro_cli := r.nro_cli
               nro_med := r.nro_med
               usuario := r.usuario
               domicilio := r.domicilio
               normalizado := some (normalizar_bool r.normalizado)
               fecha_alta := some fa
               fecha_intervencion := some hoy
               estado := some "pendiente" })

/-- `procesar_csv` as a transformation of the resident dataset (it mutates
`st.session_state.data` in place and returns Python `None`, so the
caller-side merge block never runs for CSV uploads).  Lines 166–174 of
`app.py`: `pl.concat([existing_df, df_csv]).unique(subset=['nro_cli'],
keep='first')` when the dataset is non-empty, else
`df_csv.unique(subset=['nro_cli'], keep='first')`. -/
def procesar_csv (hoy : String) (data : List Registro) (rows : List CsvRow) :
    List Registro :=
  if 0 < data.length then uniqueKeepFirst (data ++ procesarCsvBatch hoy rows)
  else uniqueKeepFirst (procesarCsvBatch hoy rows)

/-! ## ODS adapter `procesar_ods` and the upload merge block -/

/-- `ODS_ESTADO_MAP.get(s.strip().lower(), "pendiente")` applied to the
`fill_null("")`-ed first column. -/
def estadoDesdeSimbolo (simbolo : Option String) : String :=
  (ODS_ESTADO_MAP.lookup (pyLower (pyStrip (simbolo.getD "")))).getD "pendiente"

/-- A raw row of the uploaded spreadsheet: the symbol column (first column)
plus the renamed data columns.  Canonical columns absent from the source
(`fecha_intervencion`, `estado`) are filled with null / derived. -/
structure OdsRow where
  simbolo : Option String
  nro_cli : Option Int
  nro_med : Option Int
  usuario : Option String
  domicilio : Option String
  normalizado : Option Int
  fecha_alta : Option String
deriving Repr, DecidableEq

def odsRowToRegistro (r : OdsRow) : Registro :=
  { nro_cli := r.nro_cli
    nro_med := r.nro_med
    usuario := r.usuario
    domicilio := r.domicilio
    normalizado := r.normalizado
    fecha_alta := r.fecha_alta
    fecha_intervencion := none
    estado := some (estadoDesdeSimbolo r.simbolo) }

/-- An uploaded spreadsheet: the logical name of its first column and its
rows. -/
structure OdsFile where
  firstCol : String
  rows : List OdsRow
deriving Repr, DecidableEq

/-- `procesar_ods` from `app.py`: `None` on an empty frame, `None` (with a
format error message) when the first column is not named `X`
case-insensitively (`col_x.upper() != 'X'`), otherwise the normalized
batch. -/
def procesar_ods (f : OdsFile) : Option (List Registro) :=
  if f.rows.length == 0 then none
  else if pyUpper f.firstCol ≠ "X" then none
  else some (f.rows.map odsRowToRegistro)

/-- The caller-side merge block (lines 283–289 of `app.py`) as reached by an
ODS upload: when `procesar_ods` returns a batch, concat + `unique(subset=
['nro_cli'], keep='last')` if the dataset is non-empty, else store the
batch as-is; when it returns `None`, the dataset is untouched. -/
def uploadOds (data : List Registro) (f : OdsFile) : List Registro :=
  match procesar_ods f with
  | none => data
  | some df_nuevo =>
    if 0 < data.length then uniqueKeepLast (data ++ df_nuevo)
    else df_nuevo

/-! ## Grid commit `Guardar cambios` (partial-view reconciliation) -/

/-- The `Guardar cambios` handler (lines 356–384 of `app.py`): filter the
edited frame to rows with a non-null positive `nro_cli`; anti-join the
full dataset against the keys of that *committed* frame (a full-dataset
row whose key is null is dropped too, since `~null.is_in(...)` is null and
`filter` drops null-mask rows); concatenate. -/
def guardar_cambios (data edited : List Registro) : List Registro :=
  let committed := edited.filter (fun r =>
    match r.nro_cli with
    | none => false
    | some k => decide (0 < k))
  let ks := keys committed
  let unaffected := data.filter (fun r =>
    match r.nro_cli with
    | none => false
    | some _ => !(ks.contains r.nro_cli))
  unaffected ++ committed

/-! ## Relational snapshot load `cargar_db` -/

/-- `pl.col('fecha_intervencion').fill_null(hoy)` on one row. -/
def fillIntervencion (hoy : String) (r : Registro) : Registro :=
  { r with fecha_intervencion := some (r.fecha_intervencion.getD hoy) }

/-- `cargar_db`: read every row of the `desvinculados` table of the
uploaded snapshot and fill null `fecha_intervencion` with today. -/
def cargar_db (hoy : String) (snapshot : List Registro) : List Registro :=
  snapshot.map (fillIntervencion hoy)

/-- The session-level effect of a successful `.db` upload:
`st.session_state.data = df` — wholesale assignment, ignoring the prior
dataset. -/
def loadDbOp (hoy : String) (_data snapshot : List Registro) : List Registro :=
  cargar_db hoy snapshot

/-! ## Specification helpers: first/last occurrence of a key -/

/-- The last row of `l` whose `nro_cli` is `k`. -/
def lastWith (k : Option Int) : List Registro → Option Registro
  | [] => none
  | r :: rest =>
    match lastWith k rest with
    | some x => some x
    | none => if r.nro_cli = k then some r else none

/-- The first row of `l` whose `nro_cli` is `k`. -/
def firstWith (k : Option Int) : List Registro → Option Registro
  | [] => none
  | r :: rest => if r.nro_cli = k then some r else firstWith k rest

/-! ## Concrete sample data used by counterexamples and witnesses -/

/-- An existing resident record with key 1. -/
def regOld : Registro :=
  { nro_cli := some 1, nro_med := some 100, usuario := some "antiguo",
    domicilio := some "calle vieja 1", normalizado := some 0,
    fecha_alta := some "2020-05-05", fecha_intervencion := some "2020-05-05",
    estado := some "cargado" }

/-- A CSV batch row carrying the same key 1 with different content. -/
def rowNew : CsvRow :=
  { nro_cli := some 1, nro_med := some 200, usuario := some "nuevo",
    domicilio := some "calle nueva 2", normalizado := some "1",
    fecha_alta := some "2025-01-15" }

/-- The canonical record `procesarCsvBatch` produces from `rowNew` on
ingestion date 2025-06-01. -/
def regNew : Registro :=
  { nro_cli := some 1, nro_med := some 200, usuario := some "nuevo",
    domicilio := some "calle nueva 2", normalizado := some 1,
    fecha_alta := some "2025-01-15", fecha_intervencion := some "2025-06-01",
    estado := some "pendiente" }

/-- A CSV row with primary key 0 (non-positive). -/
def rowKey0 : CsvRow :=
  { nro_cli := some 0, nro_med := some 9, usuario := some "cero",
    domicilio := some "d0", normalizado := some "0",
    fecha_alta := some "2025-01-15" }

/-- A CSV row with a null primary key. -/
def rowKeyNone : CsvRow :=
  { nro_cli := none, nro_med := some 9, usuario := some "nulo",
    domicilio := some "dn", normalizado := some "0",
    fecha_alta := some "2025-01-15" }

/-- A CSV row whose date fails normalization. -/
def rowBadDate : CsvRow :=
  { nro_cli := some 77, nro_med := some 9, usuario := some "malafecha",
    domicilio := some "dm", normalizado := some "0",
    fecha_alta := some "fecha invalida" }

/-- A CSV row whose date cell is null in the source file. -/
def rowNullDate : CsvRow :=
  { nro_cli := some 78, nro_med := some 9, usuario := some "sinfecha",
    domicilio := some "df", normalizado := some "0",
    fecha_alta := none }

/-- Two ODS rows sharing primary key 5 with different content. -/
def odsRowA : OdsRow :=
  { simbolo := some "+", nro_cli := some 5, nro_med := some 51,
    usuario := some "primero", domicilio := some "da",
    normalizado := some 1, fecha_alta := some "2024-01-01" }

def odsRowB : OdsRow :=
  { simbolo := some "?", nro_cli := some 5, nro_med := some 52,
    usuario := some "segundo", domicilio := some "db",
    normalizado := some 0, fecha_alta := some "2024-02-02" }

/-- An ODS upload whose first column is (case-insensitively) named X and
whose two rows repeat key 5. -/
def odsFileX : OdsFile := { firstCol := "x", rows := [odsRowA, odsRowB] }

/-- An ODS row with primary key 0. -/
def odsRow0 : OdsRow :=
  { simbolo := none, nro_cli := some 0, nro_med := some 53,
    usuario := some "cero ods", domicilio := some "dc",
    normalizado := some 0, fecha_alta := some "2024-03-03" }

def odsFile0 : OdsFile := { firstCol := "X", rows := [odsRow0] }

/-- An ODS upload whose first column has the wrong name. -/
def odsFileBad : OdsFile := { firstCol := "NAME", rows := [odsRowA] }

/-- A well-formed one-row ODS upload (no repeated keys). -/
def odsFileSolo : OdsFile := { firstCol := "X", rows := [odsRowA] }

/-- Records with keys 1, 2, 3 for the reconciliation scenario. -/
def regE1 : Registro :=
  { nro_cli := some 1, nro_med := some 11, usuario := some "uno",
    domicilio := some "d1", normalizado := some 0,
    fecha_alta := some "2020-01-01", fecha_intervencion := some "2020-01-01",
    estado := some "pendiente" }

def regE2 : Registro :=
  { nro_cli := some 2, nro_med := some 12, usuario := some "dos",
    domicilio := some "d2", normalizado := some 0,
    fecha_alta := some "2020-01-02", fecha_intervencion := some "2020-01-02",
    estado := some "pendiente" }

def regE3 : Registro :=
  { nro_cli := some 3, nro_med := some 13, usuario := some "tres",
    domicilio := some "d3", normalizado := some 0,
    fecha_alta := some "2020-01-03", fecha_intervencion := some "2020-01-03",
    estado := some "revisar" }

/-- The user's edit of `regE1` (status changed in the grid). -/
def regE1edit : Registro :=
  { nro_cli := some 1, nro_med := some 11, usuario := some "uno",
    domicilio := some "d1", normalizado := some 0,
    fecha_alta := some "2020-01-01", fecha_intervencion := some "2025-06-01",
    estado := some "cargado" }

/-- Grid rows with null and non-positive keys (abandoned additions). -/
def regKey0 : Registro :=
  { nro_cli := some 0, nro_med := some 14, usuario := some "cero grid",
    domicilio := some "d4", normalizado := some 0,
    fecha_alta := some "2020-01-04", fecha_intervencion := some "2020-01-04",
    estado := some "pendiente" }

def regKeyNone : Registro :=
  { nro_cli := none, nro_med := some 15, usuario := some "nulo grid",
    domicilio := some "d5", normalizado := some 0,
    fecha_alta := some "2020-01-05", fecha_intervencion := some "2020-01-05",
    estado := some "pendiente" }

/-- A snapshot row with a null `fecha_intervencion`. -/
def regSnapNull : Registro :=
  { nro_cli := some 2, nro_med := some 21, usuario := some "instantanea",
    domicilio := some "ds", normalizado := some 1,
    fecha_alta := some "2019-09-09", fecha_intervencion := none,
    estado := some "cargado" }

/-! ## Lemmas about `keys` -/

theorem keys_nil : keys [] = [] := rfl

theorem keys_cons (r : Registro) (l : List Registro) :
    keys (r :: l) = r.nro_cli :: keys l := rfl

theorem keys_append (l m : List Registro) :
    keys (l ++ m) = keys l ++ keys m := List.map_append _ l m

theorem mem_keys {k : Option Int} {l : List Registro} :
    k ∈ keys l ↔ ∃ r ∈ l, r.nro_cli = k := by
  simp [keys]

theorem mem_keys_of_mem {r : Registro} {l : List Registro} (h : r ∈ l) :
    r.nro_cli ∈ keys l := List.mem_map_of_mem _ h

/-- The Boolean predicate used to state the anti-join part of the merges. -/
def notInKeys (m : List Registro) : Registro → Bool :=
  fun r => decide (r.nro_cli ∉ keys m)

/-! ## Lemmas about `uniqueKeepLast` -/

theorem ukl_subset {l : List Registro} {r : Registro}
    (h : r ∈ uniqueKeepLast l) : r ∈ l := by
  induction l with
  | nil => simp [uniqueKeepLast] at h
  | cons x t ih =>
    simp only [uniqueKeepLast] at h
    split at h
    · exact List.mem_cons_of_mem _ (ih h)
    · rcases List.mem_cons.mp h with h1 | h2
      · exact h1 ▸ List.mem_cons_self _ _
      · exact List.mem_cons_of_mem _ (ih h2)

theorem keys_ukl {k : Option Int} {l : List Registro} :
    k ∈ keys (uniqueKeepLast l) ↔ k ∈ keys l := by
  induction l with
  | nil => simp [uniqueKeepLast]
  | cons x t ih =>
    simp only [uniqueKeepLast]
    split
    · rename_i h
      rw [ih, keys_cons]
      constructor
      · exact fun hk => List.mem_cons_of_mem _ hk
      · intro hk
        rcases List.mem_cons.mp hk with rfl | hk
        · exact h
        · exact hk
    · rw [keys_cons, keys_cons, List.mem_cons, List.mem_cons, ih]

theorem nodup_keys_ukl (l : List Registro) : (keys (uniqueKeepLast l)).Nodup := by
  induction l with
  | nil => simp [uniqueKeepLast, keys]
  | cons x t ih =>
    simp only [uniqueKeepLast]
    split
    · exact ih
    · rename_i h
      rw [keys_cons]
      exact List.nodup_cons.mpr ⟨fun hmem => h (keys_ukl.mp hmem), ih⟩

theorem ukl_eq_self {l : List Registro} (h : (keys l).Nodup) :
    uniqueKeepLast l = l := by
  induction l with
  | nil => rfl
  | cons x t ih =>
    rw [keys_cons, List.nodup_cons] at h
    simp only [uniqueKeepLast]
    rw [if_neg h.1, ih h.2]

theorem ukl_ne_nil {l : List Registro} (h : l ≠ []) : uniqueKeepLast l ≠ [] := by
  induction l with
  | nil => exact absurd rfl h
  | cons x t ih =>
    simp only [uniqueKeepLast]
    split
    · rename_i hx
      have ht : t ≠ [] := by
        intro h0
        subst h0
        simp [keys] at hx
      exact ih ht
    · simp

theorem ukl_append (l m : List Registro) :
    uniqueKeepLast (l ++ m) =
      uniqueKeepLast (l.filter (notInKeys m)) ++ uniqueKeepLast m := by
  induction l with
  | nil => simp [uniqueKeepLast]
  | cons x t ih =>
    by_cases hm : x.nro_cli ∈ keys m
    · have hfilter : (x :: t).filter (notInKeys m) = t.filter (notInKeys m) := by
        simp [List.filter_cons, notInKeys, hm]
      have hmem : x.nro_cli ∈ keys (t ++ m) := by
        rw [keys_append]
        exact List.mem_append_right _ hm
      rw [List.cons_append]
      simp only [uniqueKeepLast]
      rw [if_pos hmem, hfilter, ih]
    · have hfilter : (x :: t).filter (notInKeys m) = x :: t.filter (notInKeys m) := by
        simp [List.filter_cons, notInKeys, hm]
      by_cases hl : x.nro_cli ∈ keys t
      · have hlf : x.nro_cli ∈ keys (t.filter (notInKeys m)) := by
          rcases mem_keys.mp hl with ⟨y, hy, hyk⟩
          exact mem_keys.mpr
            ⟨y, List.mem_filter.mpr ⟨hy, by simp [notInKeys, hyk, hm]⟩, hyk⟩
        have hmem : x.nro_cli ∈ keys (t ++ m) := by
          rw [keys_append]
          exact List.mem_append_left _ hl
        rw [List.cons_append]
        simp only [uniqueKeepLast]
        rw [if_pos hmem, hfilter]
        have hred : uniqueKeepLast (x :: t.filter (notInKeys m)) =
            uniqueKeepLast (t.filter (notInKeys m)) := by
          simp only [uniqueKeepLast]
          rw [if_pos hlf]
        rw [hred, ih]
      · have hlf : x.nro_cli ∉ keys (t.filter (notInKeys m)) := by
          intro hc
          rcases mem_keys.mp hc with ⟨y, hy, hyk⟩
          exact hl (mem_keys.mpr ⟨y, List.mem_of_mem_filter hy, hyk⟩)
        have hmem : x.nro_cli ∉ keys (t ++ m) := by
          rw [keys_append]
          intro hc
          rcases List.mem_append.mp hc with hc | hc
          · exact hl hc
          · exact hm hc
        rw [List.cons_append]
        simp only [uniqueKeepLast]
        rw [if_neg hmem, hfilter]
        have hred : uniqueKeepLast (x :: t.filter (notInKeys m)) =
            x :: uniqueKeepLast (t.filter (notInKeys m)) := by
          simp only [uniqueKeepLast]
          rw [if_neg hlf]
        rw [hred, List.cons_append, ih]

/-! ## Lemmas about `lastWith` and membership in `uniqueKeepLast` -/

theorem lastWith_mem {k : Option Int} {l : List Registro} {r : Registro}
    (h : lastWith k l = some r) : r ∈ l ∧ r.nro_cli = k := by
  induction l with
  | nil => simp [lastWith] at h
  | cons x t ih =>
    cases hlt : lastWith k t with
    | some y =>
      have hx : lastWith k (x :: t) = some y := by simp [lastWith, hlt]
      rw [hx] at h
      cases h
      obtain ⟨hy, hk⟩ := ih hlt
      exact ⟨List.mem_cons_of_mem _ hy, hk⟩
    | none =>
      have hx : lastWith k (x :: t) = if x.nro_cli = k then some x else none := by
        simp [lastWith, hlt]
      rw [hx] at h
      split at h
      · rename_i hk
        cases h
        exact ⟨List.mem_cons_self _ _, hk⟩
      · simp at h

theorem lastWith_isSome {k : Option Int} {l : List Registro} (h : k ∈ keys l) :
    ∃ r, lastWith k l = some r := by
  induction l with
  | nil => simp [keys] at h
  | cons x t ih =>
    cases hlt : lastWith k t with
    | some y => exact ⟨y, by simp [lastWith, hlt]⟩
    | none =>
      rw [keys_cons] at h
      rcases List.mem_cons.mp h with rfl | hk
      · exact ⟨x, by simp [lastWith, hlt]⟩
      · rcases ih hk with ⟨y, hy⟩
        rw [hy] at hlt
        cases hlt

theorem lastWith_none {k : Option Int} {l : List Registro} (h : k ∉ keys l) :
    lastWith k l = none := by
  induction l with
  | nil => rfl
  | cons x t ih =>
    rw [keys_cons] at h
    have h1 : ¬ (x.nro_cli = k) := fun he => h (he ▸ List.mem_cons_self _ _)
    have h2 : k ∉ keys t := fun hk => h (List.mem_cons_of_mem _ hk)
    simp [lastWith, ih h2, h1]

theorem mem_ukl {l : List Registro} {r : Registro} :
    r ∈ uniqueKeepLast l ↔ lastWith r.nro_cli l = some r := by
  induction l with
  | nil => simp [uniqueKeepLast, lastWith]
  | cons x t ih =>
    simp only [uniqueKeepLast]
    split
    · rename_i hx
      rw [ih]
      cases hlt : lastWith r.nro_cli t with
      | some y => simp [lastWith, hlt]
      | none =>
        simp only [lastWith, hlt]
        constructor
        · intro h
          cases h
        · intro h
          split at h
          · rename_i hk
            rcases lastWith_isSome (l := t) (k := r.nro_cli) (hk ▸ hx) with ⟨y, hy⟩
            rw [hy] at hlt
            cases hlt
          · cases h
    · rename_i hx
      rw [List.mem_cons, ih]
      by_cases hk : x.nro_cli = r.nro_cli
      · have hnone : lastWith r.nro_cli t = none := lastWith_none (hk ▸ hx)
        simp only [lastWith, hnone, if_pos hk]
        constructor
        · rintro (rfl | hsome)
          · rfl
          · exact Option.noConfusion hsome
        · intro h
          cases h
          exact Or.inl rfl
      · have hrx : r ≠ x := fun he => hk (by rw [he])
        simp only [lastWith]
        cases hlt : lastWith r.nro_cli t with
        | some y => simp [hrx]
        | none => simp [hrx, hk]

/-! ## Lemmas about `firstWith`, `ukfAux` and `uniqueKeepFirst` -/

theorem firstWith_mem {k : Option Int} {l : List Registro} {r : Registro}
    (h : firstWith k l = some r) : r ∈ l ∧ r.nro_cli = k := by
  induction l with
  | nil => simp [firstWith] at h
  | cons x t ih =>
    simp only [firstWith] at h
    split at h
    · rename_i hk
      cases h
      exact ⟨List.mem_cons_self _ _, hk⟩
    · obtain ⟨hy, hk⟩ := ih h
      exact ⟨List.mem_cons_of_mem _ hy, hk⟩

theorem firstWith_isSome {k : Option Int} {l : List Registro} (h : k ∈ keys l) :
    ∃ r, firstWith k l = some r := by
  induction l with
  | nil => simp [keys] at h
  | cons x t ih =>
    rw [keys_cons] at h
    by_cases hk : x.nro_cli = k
    · exact ⟨x, by simp [firstWith, hk]⟩
    · rcases List.mem_cons.mp h with rfl | hmem
      · exact absurd rfl hk
      · rcases ih hmem with ⟨y, hy⟩
        exact ⟨y, by simp [firstWith, hk, hy]⟩

theorem mem_ukfAux {seen : List (Option Int)} {l : List Registro} {r : Registro} :
    r ∈ ukfAux seen l ↔ r.nro_cli ∉ seen ∧ firstWith r.nro_cli l = some r := by
  induction l generalizing seen with
  | nil => simp [ukfAux, firstWith]
  | cons x t ih =>
    simp only [ukfAux]
    split
    · rename_i hx
      rw [ih]
      simp only [firstWith]
      by_cases hk : x.nro_cli = r.nro_cli
      · rw [if_pos hk]
        constructor
        · rintro ⟨hns, _⟩
          exact absurd (hk ▸ hx) hns
        · rintro ⟨hns, _⟩
          exact absurd (hk ▸ hx) hns
      · rw [if_neg hk]
    · rename_i hx
      rw [List.mem_cons, ih]
      simp only [firstWith]
      by_cases hk : x.nro_cli = r.nro_cli
      · rw [if_pos hk]
        constructor
        · rintro (rfl | ⟨hns, _⟩)
          · exact ⟨hx, rfl⟩
          · exact absurd (List.mem_cons.mpr (Or.inl hk.symm)) hns
        · rintro ⟨_, heq⟩
          cases heq
          exact Or.inl rfl
      · rw [if_neg hk]
        have hrx : r ≠ x := fun he => hk (by rw [he])
        constructor
        · rintro (rfl | ⟨hns, hf⟩)
          · exact absurd rfl hk
          · exact ⟨fun hs => hns (List.mem_cons_of_mem _ hs), hf⟩
        · rintro ⟨hns, hf⟩
          refine Or.inr ⟨?_, hf⟩
          intro hc
          rcases List.mem_cons.mp hc with he | hs
          · exact hk he.symm
          · exact hns hs

theorem mem_ukf {l : List Registro} {r : Registro} :
    r ∈ uniqueKeepFirst l ↔ firstWith r.nro_cli l = some r := by
  rw [uniqueKeepFirst, mem_ukfAux]
  simp

theorem ukfAux_congr {s1 s2 : List (Option Int)} (h : ∀ k, k ∈ s1 ↔ k ∈ s2) :
    ∀ l, ukfAux s1 l = ukfAux s2 l := by
  intro l
  induction l generalizing s1 s2 with
  | nil => rfl
  | cons x t ih =>
    simp only [ukfAux]
    by_cases hx : x.nro_cli ∈ s1
    · rw [if_pos hx, if_pos ((h _).mp hx), ih h]
    · rw [if_neg hx, if_neg (fun hc => hx ((h _).mpr hc))]
      have h2 : ∀ k, k ∈ x.nro_cli :: s1 ↔ k ∈ x.nro_cli :: s2 := by
        intro k
        simp [List.mem_cons, h k]
      rw [ih h2]

theorem ukfAux_append (l m : List Registro) :
    ∀ seen, ukfAux seen (l ++ m) = ukfAux seen l ++ ukfAux (keys l ++ seen) m := by
  induction l with
  | nil =>
    intro seen
    simp [ukfAux, keys]
  | cons x t ih =>
    intro seen
    simp only [List.cons_append, ukfAux, List.append_eq]
    by_cases hx : x.nro_cli ∈ seen
    · rw [if_pos hx, if_pos hx, ih]
      congr 1
      apply ukfAux_congr
      intro k
      rw [keys_cons]
      simp only [List.mem_append, List.mem_cons]
      constructor
      · tauto
      · rintro ((rfl | hk) | hk)
        · exact Or.inr hx
        · exact Or.inl hk
        · exact Or.inr hk
    · rw [if_neg hx, if_neg hx, ih]
      congr 1
      congr 1
      apply ukfAux_congr
      intro k
      rw [keys_cons]
      simp only [List.mem_append, List.mem_cons]
      tauto

theorem ukfAux_nil {seen : List (Option Int)} {m : List Registro}
    (h : ∀ r ∈ m, r.nro_cli ∈ seen) : ukfAux seen m = [] := by
  induction m with
  | nil => rfl
  | cons x t ih =>
    simp only [ukfAux]
    rw [if_pos (h x (List.mem_cons_self _ _))]
    exact ih (fun r hr => h r (List.mem_cons_of_mem _ hr))

theorem keys_ukfAux {seen : List (Option Int)} {l : List Registro} {k : Option Int} :
    k ∈ keys (ukfAux seen l) ↔ k ∉ seen ∧ k ∈ keys l := by
  induction l generalizing seen with
  | nil => simp [ukfAux, keys]
  | cons x t ih =>
    simp only [ukfAux]
    split
    · rename_i hx
      rw [ih, keys_cons]
      constructor
      · rintro ⟨h1, h2⟩
        exact ⟨h1, List.mem_cons_of_mem _ h2⟩
      · rintro ⟨h1, h2⟩
        rcases List.mem_cons.mp h2 with rfl | h2
        · exact absurd hx h1
        · exact ⟨h1, h2⟩
    · rename_i hx
      simp only [keys_cons, List.mem_cons, ih]
      constructor
      · rintro (rfl | ⟨h1, h2⟩)
        · exact ⟨hx, Or.inl rfl⟩
        · exact ⟨fun hs => h1 (Or.inr hs), Or.inr h2⟩
      · rintro ⟨h1, h2⟩
        rcases h2 with rfl | h2
        · exact Or.inl rfl
        · by_cases hk : k = x.nro_cli
          · exact Or.inl hk
          · refine Or.inr ⟨?_, h2⟩
            rintro (he | hs)
            · exact hk he
            · exact h1 hs

theorem keys_ukf {l : List Registro} {k : Option Int} :
    k ∈ keys (uniqueKeepFirst l) ↔ k ∈ keys l := by
  rw [uniqueKeepFirst, keys_ukfAux]
  simp

theorem ukfAux_eq_self {seen : List (Option Int)} {l : List Registro}
    (h1 : (keys l).Nodup) (h2 : ∀ r ∈ l, r.nro_cli ∉ seen) :
    ukfAux seen l = l := by
  induction l generalizing seen with
  | nil => rfl
  | cons x t ih =>
    rw [keys_cons, List.nodup_cons] at h1
    simp only [ukfAux]
    rw [if_neg (h2 x (List.mem_cons_self _ _))]
    congr 1
    apply ih h1.2
    intro r hr
    intro hc
    rcases List.mem_cons.mp hc with he | hs
    · exact h1.1 (he ▸ mem_keys_of_mem hr)
    · exact h2 r (List.mem_cons_of_mem _ hr) hs

theorem ukf_eq_self {l : List Registro} (h : (keys l).Nodup) :
    uniqueKeepFirst l = l :=
  ukfAux_eq_self h (by simp)

theorem nodup_keys_ukfAux {seen : List (Option Int)} (l : List Registro) :
    (keys (ukfAux seen l)).Nodup := by
  induction l generalizing seen with
  | nil => simp [ukfAux, keys]
  | cons x t ih =>
    simp only [ukfAux]
    split
    · exact ih
    · rw [keys_cons]
      refine List.nodup_cons.mpr ⟨?_, ih⟩
      intro hc
      exact (keys_ukfAux.mp hc).1 (List.mem_cons_self _ _)

theorem nodup_keys_ukf (l : List Registro) : (keys (uniqueKeepFirst l)).Nodup :=
  nodup_keys_ukfAux l

theorem ukf_ne_nil {l : List Registro} (h : l ≠ []) : uniqueKeepFirst l ≠ [] := by
  cases l with
  | nil => exact absurd rfl h
  | cons x t => simp [uniqueKeepFirst, ukfAux]

/-! ## Derived facts about the merge operations -/

theorem ukf_absorb {l m : List Registro} (h : ∀ k, k ∈ keys m → k ∈ keys l) :
    uniqueKeepFirst (l ++ m) = uniqueKeepFirst l := by
  rw [uniqueKeepFirst, ukfAux_append]
  have h2 : ukfAux (keys l ++ []) m = [] := by
    apply ukfAux_nil
    intro r hr
    rw [List.append_nil]
    exact h _ (mem_keys_of_mem hr)
  rw [h2, List.append_nil]
  rfl

theorem ukf_idem (l : List Registro) :
    uniqueKeepFirst (uniqueKeepFirst l) = uniqueKeepFirst l :=
  ukf_eq_self (nodup_keys_ukf l)

/-- The CSV upload path is idempotent: applying `procesar_csv` twice with
the same file is the same as applying it once. -/
theorem csv_idempotent (hoy : String) (data : List Registro) (rows : List CsvRow) :
    procesar_csv hoy (procesar_csv hoy data rows) rows =
      procesar_csv hoy data rows := by
  unfold procesar_csv
  by_cases hd : 0 < data.length
  · rw [if_pos hd]
    have hdne : data ≠ [] := List.length_pos.mp hd
    have hne : uniqueKeepFirst (data ++ procesarCsvBatch hoy rows) ≠ [] := by
      apply ukf_ne_nil
      intro h0
      exact hdne (List.append_eq_nil.mp h0).1
    rw [if_pos (List.length_pos.mpr hne)]
    rw [ukf_absorb]
    · exact ukf_idem _
    · intro k hk
      apply keys_ukf.mpr
      rw [keys_append]
      exact List.mem_append_right _ hk
  · rw [if_neg hd]
    by_cases hB : procesarCsvBatch hoy rows = []
    · rw [hB]
      simp [uniqueKeepFirst, ukfAux]
    · have hne : uniqueKeepFirst (procesarCsvBatch hoy rows) ≠ [] := ukf_ne_nil hB
      rw [if_pos (List.length_pos.mpr hne)]
      rw [ukf_absorb (fun k hk => keys_ukf.mpr hk)]
      exact ukf_idem _

/-- Re-merging the same batch into an already-merged dataset is a no-op for
the `keep='last'` merge. -/
theorem ukl_stable (d b : List Registro) :
    uniqueKeepLast (uniqueKeepLast (d ++ b) ++ b) = uniqueKeepLast (d ++ b) := by
  rw [ukl_append d b, ukl_append _ b]
  congr 1
  have h1 : (uniqueKeepLast b).filter (notInKeys b) = [] := by
    apply List.filter_eq_nil_iff.mpr
    intro r hr
    simp only [notInKeys, decide_eq_true_eq, Decidable.not_not]
    exact mem_keys_of_mem (ukl_subset hr)
  have h2 : (uniqueKeepLast (d.filter (notInKeys b))).filter (notInKeys b) =
      uniqueKeepLast (d.filter (notInKeys b)) := by
    apply List.filter_eq_self.mpr
    intro r hr
    exact (List.mem_filter.mp (ukl_subset hr)).2
  rw [List.filter_append, h1, h2, List.append_nil]
  exact ukl_eq_self (nodup_keys_ukl _)

/-- A successful `procesar_ods` result is the row-wise image of a non-empty
row list, hence non-empty. -/
theorem procesar_ods_ne_nil {f : OdsFile} {batch : List Registro}
    (hp : procesar_ods f = some batch) : batch ≠ [] := by
  unfold procesar_ods at hp
  split at hp
  · cases hp
  · split at hp
    · cases hp
    · rename_i hlen _
      cases hp
      intro h0
      cases hrows : f.rows with
      | nil => rw [hrows] at hlen; simp at hlen
      | cons r0 rest => rw [hrows] at h0; simp at h0

/-! ## Lookup totality helper for the status map -/

theorem lookup_mem_values {α β : Type} [BEq α] (l : List (α × β)) (k : α) (v : β)
    (h : l.lookup k = some v) : v ∈ l.map Prod.snd := by
  induction l with
  | nil => simp [List.lookup] at h
  | cons p t ih =>
    obtain ⟨a, b⟩ := p
    simp only [List.lookup] at h
    cases hbeq : (k == a) with
    | true =>
      rw [hbeq] at h
      cases h
      exact List.mem_cons_self _ _
    | false =>
      rw [hbeq] at h
      exact List.mem_cons_of_mem _ (ih h)

theorem estado_total (s : Option String) : estadoDesdeSimbolo s ∈ ESTADOS := by
  unfold estadoDesdeSimbolo
  cases hl : List.lookup (pyLower (pyStrip (s.getD ""))) ODS_ESTADO_MAP with
  | none => decide
  | some v =>
    rw [Option.getD_some]
    have hv := lookup_mem_values _ _ _ hl
    simp only [ODS_ESTADO_MAP, List.map_cons, List.map_nil, List.mem_cons,
      List.not_mem_nil, or_false] at hv
    rcases hv with rfl | rfl | rfl | rfl | rfl <;> decide

/-! ## Claim C1 -/

/-- C1 (counterexample): on the CSV upload path the batch record does NOT
replace the existing record with the same key.  The batch produced from
`rowNew` carries key 1 with record `regNew`, yet merging it into a dataset
holding `regOld` (same key 1) keeps `regOld` and discards `regNew`, because
`procesar_csv` concatenates existing-then-new and deduplicates with
`keep='first'`. -/
theorem c1_counterexample :
    procesarCsvBatch "2025-06-01" [rowNew] = [regNew] ∧
    regNew.nro_cli ∈ keys (procesarCsvBatch "2025-06-01" [rowNew]) ∧
    procesar_csv "2025-06-01" [regOld] [rowNew] = [regOld] ∧
    regNew ∉ procesar_csv "2025-06-01" [regOld] [rowNew] ∧
    regOld ≠ regNew := by
  refine ⟨by decide, by decide, by decide, by decide, by decide⟩

/-- C1 (amended): last-write-wins holds on the ODS upload path when the
resident dataset is non-empty and duplicate-free: for every key present in
the normalized batch, the last batch occurrence for that key is in the
result, and every existing record whose key is absent from the batch is
preserved unchanged.  (On the CSV path the code instead keeps the
first-seen record, and an ODS batch merged into an empty dataset is stored
without in-batch dedup.) -/
theorem c1_amended (data batch : List Registro) (f : OdsFile)
    (hproc : procesar_ods f = some batch)
    (hne : data ≠ []) (hnd : (keys data).Nodup) :
    (∀ r ∈ data, r.nro_cli ∉ keys batch → r ∈ uploadOds data f) ∧
    (∀ k ∈ keys batch, ∃ r, lastWith k batch = some r ∧ r ∈ uploadOds data f) := by
  have hpos : 0 < data.length := List.length_pos.mpr hne
  have hup : uploadOds data f = uniqueKeepLast (data ++ batch) := by
    simp [uploadOds, hproc, hpos]
  rw [hup, ukl_append]
  constructor
  · intro r hr hkb
    apply List.mem_append_left
    have hrf : r ∈ data.filter (notInKeys batch) :=
      List.mem_filter.mpr ⟨hr, by simp [notInKeys, hkb]⟩
    have hndf : (keys (data.filter (notInKeys batch))).Nodup :=
      List.Nodup.sublist ((List.filter_sublist data).map _) hnd
    rw [ukl_eq_self hndf]
    exact hrf
  · intro k hk
    rcases lastWith_isSome hk with ⟨r, hr⟩
    refine ⟨r, hr, ?_⟩
    apply List.mem_append_right
    have hkey : r.nro_cli = k := (lastWith_mem hr).2
    exact mem_ukl.mpr (by rw [hkey]; exact hr)

/-- C1 (witness): the amended theorem applied to the concrete dataset
`[regOld]` and the concrete ODS upload `odsFileX` (keys 5, 5). -/
theorem c1_amended_witness :
    regOld ∈ uploadOds [regOld] odsFileX ∧
    (∃ r, lastWith (some 5) (odsFileX.rows.map odsRowToRegistro) = some r ∧
      r ∈ uploadOds [regOld] odsFileX) := by
  have h := c1_amended [regOld] (odsFileX.rows.map odsRowToRegistro) odsFileX
    (by decide) (by decide) (by decide)
  exact ⟨h.1 regOld (by decide) (by decide), h.2 (some 5) (by decide)⟩

/-! ## Claim C2 -/

/-- C2 (code evaluation at the failing input): dataset with keys 1, 2, 3;
visible subset keys 1, 2 (for instance the `pendiente` filter); edited
subset containing only the edited key-1 row (the user deleted the key-2
row in the grid).  The commit handler anti-joins on the keys of the
*edited* frame, so the supposedly deleted `regE2` survives: the result is
exactly the three records 2, 3 and 1-edited, not the claimed two records
1-edited and 3. -/
theorem c2_code_eval :
    guardar_cambios [regE1, regE2, regE3] [regE1edit] =
      [regE2, regE3, regE1edit] ∧
    regE2 ∈ guardar_cambios [regE1, regE2, regE3] [regE1edit] := by
  refine ⟨by decide, by decide⟩

/-! ## Claim C3 -/

/-- C3 (code evaluation at the failing input): uploading the ODS file
`odsFileX`, whose two rows both carry key 5, into an *empty* resident
dataset stores the batch verbatim (the merge block only deduplicates when
the dataset is non-empty), so the resulting dataset holds two records with
equal `nro_cli`. -/
theorem c3_code_eval :
    uploadOds [] odsFileX = odsFileX.rows.map odsRowToRegistro ∧
    keys (uploadOds [] odsFileX) = [some 5, some 5] ∧
    ¬ (keys (uploadOds [] odsFileX)).Nodup := by
  refine ⟨by decide, by decide, by decide⟩

/-! ## Claim C4 -/

/-- C4 (counterexample): the empty string and the literal tokens `none` and
`nan` do NOT normalize to the current date; `normalizar_fecha` returns a
parse failure (Python `None`) for them, because the today-fallback guard
only fires for an actual null input. -/
theorem c4_counterexample :
    normalizar_fecha "2025-06-01" (some "") = none ∧
    normalizar_fecha "2025-06-01" (some "none") = none ∧
    normalizar_fecha "2025-06-01" (some "nan") = none ∧
    (none : Option String) ≠ some "2025-06-01" := by
  refine ⟨by decide, by decide, by decide, by decide⟩

/-- C4 (amended): normalizing `3 oct. 2011` yields `2011-10-03`; an
already-canonical `2025-01-15` is returned unchanged; a null input yields
the current date; but empty-string, `none` and `nan` inputs yield a parse
failure rather than the current date. -/
theorem c4_amended (hoy : String) :
    normalizar_fecha hoy none = some hoy ∧
    normalizar_fecha hoy (some "3 oct. 2011") = some "2011-10-03" ∧
    normalizar_fecha hoy (some "2025-01-15") = some "2025-01-15" ∧
    normalizar_fecha hoy (some "") = none ∧
    normalizar_fecha hoy (some "none") = none ∧
    normalizar_fecha hoy (some "nan") = none :=
  ⟨rfl, rfl, rfl, rfl, rfl, rfl⟩

/-- C4 (witness): the amended theorem instantiated at the concrete current
date 2025-06-01. -/
theorem c4_amended_witness :
    normalizar_fecha "2025-06-01" none = some "2025-06-01" ∧
    normalizar_fecha "2025-06-01" (some "3 oct. 2011") = some "2011-10-03" :=
  ⟨(c4_amended "2025-06-01").1, (c4_amended "2025-06-01").2.1⟩

/-! ## Claim C5 -/

/-- C5 (counterexample): the boolean normalizer lowercases but never trims,
so the padded token falls outside the truthy set and normalizes to 0
(false), not 1 (true) as claimed. -/
theorem c5_counterexample :
    normalizar_bool (some " True ") = 0 ∧ (0 : Int) ≠ 1 := ⟨by decide, by decide⟩

/-- C5 (amended): the input is case-folded (NOT trimmed) and
membership-tested against the truthy set; every token of the set and its
case variants normalize to 1, every other input — including whitespace
padded truthy tokens, the empty string and null — normalizes to 0, and the
normalizer is total with range 0 or 1. -/
theorem c5_amended :
    (∀ v : Option String, normalizar_bool v = 0 ∨ normalizar_bool v = 1) ∧
    normalizar_bool (some "SI") = 1 ∧
    normalizar_bool (some "1") = 1 ∧
    normalizar_bool (some "t") = 1 ∧
    normalizar_bool (some "true") = 1 ∧
    normalizar_bool (some "si") = 1 ∧
    normalizar_bool (some "s") = 1 ∧
    normalizar_bool (some "True") = 1 ∧
    normalizar_bool (some " True ") = 0 ∧
    normalizar_bool (some "no") = 0 ∧
    normalizar_bool (some "") = 0 ∧
    normalizar_bool (some "2") = 0 ∧
    normalizar_bool none = 0 := by
  refine ⟨?_, by decide, by decide, by decide, by decide, by decide, by decide,
    by decide, by decide, by decide, by decide, by decide, by decide⟩
  intro v
  cases v with
  | none => exact Or.inl rfl
  | some s =>
    by_cases h : pyLower s ∈ TRUE_VALUES
    · exact Or.inr (by simp [normalizar_bool, h])
    · exact Or.inl (by simp [normalizar_bool, h])

/-! ## Claim C6 -/

/-- C6 (counterexample): rows whose primary key is 0 (non-positive) or null
are NOT dropped by the CSV adapter — they enter the resident dataset. -/
theorem c6_counterexample :
    keys (procesar_csv "2025-06-01" [] [rowKey0, rowKeyNone]) = [some 0, none] := by
  decide

/-- C6 (amended): neither adapter rejects rows for a missing or
non-positive primary key (such rows reach the resident dataset on both the
CSV and the ODS paths); the per-row drops the CSV adapter does perform are
for the `fecha_alta` column — a null date cell (skipped by `map_elements`
and removed by the `is_not_null` filter) and a date that fails
normalization are both dropped; the null-or-nonpositive key filter exists
only in the grid commit handler. -/
theorem c6_amended :
    keys (procesar_csv "2025-06-01" [] [rowKey0, rowKeyNone]) = [some 0, none] ∧
    keys (uploadOds [] odsFile0) = [some 0] ∧
    procesarCsvBatch "2025-06-01" [rowBadDate] = [] ∧
    procesarCsvBatch "2025-06-01" [rowNullDate] = [] ∧
    procesar_csv "2025-06-01" [] [rowNullDate, rowBadDate] = [] ∧
    guardar_cambios [] [regKey0, regKeyNone, regE1] = [regE1] := by
  refine ⟨by decide, by decide, by decide, by decide, by decide, by decide⟩

/-! ## Claim C7 -/

/-- C7: the symbol-to-status normalizer is total with range contained in
the four enumerated statuses: `+` maps to `cargado`, `?` to `revisar`,
`x` and `-` to `otro distrito`, and null, empty and unrecognized symbols
to `pendiente`; the raw symbol is never propagated (the padded uppercase
` X ` also lands in the enumeration, via strip and casefold). -/
theorem c7_total :
    (∀ s : Option String, estadoDesdeSimbolo s ∈ ESTADOS) ∧
    estadoDesdeSimbolo (some "+") = "cargado" ∧
    estadoDesdeSimbolo (some "?") = "revisar" ∧
    estadoDesdeSimbolo (some "x") = "otro distrito" ∧
    estadoDesdeSimbolo (some "-") = "otro distrito" ∧
    estadoDesdeSimbolo none = "pendiente" ∧
    estadoDesdeSimbolo (some "") = "pendiente" ∧
    estadoDesdeSimbolo (some "desconocido") = "pendiente" ∧
    estadoDesdeSimbolo (some " X ") = "otro distrito" :=
  ⟨estado_total, by decide, by decide, by decide, by decide, by decide,
    by decide, by decide, by decide⟩

/-! ## Claim C8 -/

/-- C8: if the first column of an uploaded spreadsheet is not named `X`
case-insensitively, `procesar_ods` rejects the whole batch (returns no
batch), and the resident dataset is unchanged by the upload. -/
theorem c8_format_error (data : List Registro) (f : OdsFile)
    (h : pyUpper f.firstCol ≠ "X") :
    procesar_ods f = none ∧ uploadOds data f = data := by
  have hp : procesar_ods f = none := by
    unfold procesar_ods
    split
    · rfl
    · rfl
  exact ⟨hp, by simp [uploadOds, hp]⟩

/-- C8 (witness): a spreadsheet whose first column is named `NAME` is
rejected and the dataset `[regOld]` is unchanged. -/
theorem c8_witness :
    procesar_ods odsFileBad = none ∧ uploadOds [regOld] odsFileBad = [regOld] :=
  c8_format_error [regOld] odsFileBad (by decide)

/-! ## Claim C9 -/

/-- C9 (counterexample): upserting the same ODS batch twice is NOT always
the same as upserting it once: into an empty dataset, the first upload of
`odsFileX` (keys 5, 5) stores both rows verbatim, while the second upload
deduplicates, so the results differ. -/
theorem c9_counterexample :
    uploadOds (uploadOds [] odsFileX) odsFileX ≠ uploadOds [] odsFileX := by
  decide

/-- C9 (amended): batch upsert is idempotent on the CSV path
unconditionally, and on the ODS path whenever the resident dataset is
non-empty or the normalized batch has no repeated keys; the only failure
is an ODS batch with repeated keys merged into an empty dataset. -/
theorem c9_amended (hoy : String) (data : List Registro) (rows : List CsvRow)
    (f : OdsFile) :
    (procesar_csv hoy (procesar_csv hoy data rows) rows =
      procesar_csv hoy data rows) ∧
    (data ≠ [] → uploadOds (uploadOds data f) f = uploadOds data f) ∧
    (∀ batch, procesar_ods f = some batch → (keys batch).Nodup →
      uploadOds (uploadOds data f) f = uploadOds data f) := by
  have hods : data ≠ [] → uploadOds (uploadOds data f) f = uploadOds data f := by
    intro hne
    cases hp : procesar_ods f with
    | none => simp [uploadOds, hp]
    | some b =>
      have hpos : 0 < data.length := List.length_pos.mpr hne
      have h1 : uploadOds data f = uniqueKeepLast (data ++ b) := by
        simp [uploadOds, hp, hpos]
      have hne2 : uniqueKeepLast (data ++ b) ≠ [] := by
        apply ukl_ne_nil
        intro h0
        exact hne (List.append_eq_nil.mp h0).1
      rw [h1]
      simp only [uploadOds, hp]
      rw [if_pos (List.length_pos.mpr hne2)]
      exact ukl_stable data b
  refine ⟨csv_idempotent hoy data rows, hods, ?_⟩
  intro batch hp hnd
  by_cases hd : data = []
  · subst hd
    have h1 : uploadOds [] f = batch := by simp [uploadOds, hp]
    rw [h1]
    have hbne : batch ≠ [] := procesar_ods_ne_nil hp
    simp only [uploadOds, hp]
    rw [if_pos (List.length_pos.mpr hbne)]
    rw [ukl_append]
    have h2 : batch.filter (notInKeys batch) = [] := by
      apply List.filter_eq_nil_iff.mpr
      intro r hr
      simp only [notInKeys, decide_eq_true_eq, Decidable.not_not]
      exact mem_keys_of_mem hr
    rw [h2]
    show uniqueKeepLast [] ++ uniqueKeepLast batch = batch
    rw [show uniqueKeepLast [] = [] from rfl, List.nil_append]
    exact ukl_eq_self hnd
  · exact hods hd

/-- C9 (witness): the amended theorem applied to concrete inputs — the ODS
conjunct at dataset `[regOld]` with `odsFileX`, and the CSV conjunct at
dataset `[regOld]` with the one-row batch `[rowNew]`. -/
theorem c9_amended_witness :
    uploadOds (uploadOds [regOld] odsFileX) odsFileX =
      uploadOds [regOld] odsFileX ∧
    procesar_csv "2025-06-01" (procesar_csv "2025-06-01" [regOld] [rowNew])
      [rowNew] = procesar_csv "2025-06-01" [regOld] [rowNew] ∧
    uploadOds (uploadOds [] odsFileSolo) odsFileSolo =
      uploadOds [] odsFileSolo := by
  refine ⟨?_, ?_, ?_⟩
  · exact (c9_amended "2025-06-01" [regOld] [] odsFileX).2.1 (by decide)
  · exact (c9_amended "2025-06-01" [regOld] [rowNew] odsFileX).1
  · exact (c9_amended "2025-06-01" [] [] odsFileSolo).2.2
      [odsRowToRegistro odsRowA] (by decide) (by decide)

/-! ## Claim C10 -/

/-- C10: loading a relational snapshot replaces the resident dataset
wholesale: the result does not depend on the previous dataset, equals the
snapshot rows with null `fecha_intervencion` filled with today, and any
previous record whose key is absent from the snapshot is gone. -/
theorem c10_snapshot_replace (hoy : String) (data data2 snap : List Registro) :
    loadDbOp hoy data snap = loadDbOp hoy data2 snap ∧
    loadDbOp hoy data snap = snap.map (fillIntervencion hoy) ∧
    (∀ r ∈ loadDbOp hoy data snap, ∃ s ∈ snap, r = fillIntervencion hoy s ∧
      r.fecha_intervencion = some (s.fecha_intervencion.getD hoy)) ∧
    (∀ r ∈ data, r.nro_cli ∉ keys snap → r ∉ loadDbOp hoy data snap) := by
  refine ⟨rfl, rfl, ?_, ?_⟩
  · intro r hr
    rcases List.mem_map.mp hr with ⟨s, hs, heq⟩
    exact ⟨s, hs, heq.symm, by rw [← heq]; rfl⟩
  · intro r hr hk hmem
    rcases List.mem_map.mp hmem with ⟨s, hs, heq⟩
    apply hk
    have hkeq : r.nro_cli = s.nro_cli := by rw [← heq]; rfl
    rw [hkeq]
    exact mem_keys_of_mem hs

/-- C10 (witness): the snapshot-load theorem applied to the concrete
dataset `[regOld]` and the one-row snapshot `[regSnapNull]`. -/
theorem c10_witness :
    loadDbOp "2025-06-01" [regOld] [regSnapNull] =
      loadDbOp "2025-06-01" [] [regSnapNull] ∧
    regOld ∉ loadDbOp "2025-06-01" [regOld] [regSnapNull] := by
  constructor
  · exact (c10_snapshot_replace "2025-06-01" [regOld] [] [regSnapNull]).1
  · exact (c10_snapshot_replace "2025-06-01" [regOld] [] [regSnapNull]).2.2.2
      regOld (by decide) (by decide)
